import Mathlib

/-!
Shallow embedding of the collocation core of `swot-northsea-thesis`
(`src/collocation.py` and `src/overpass_index.py`).

Numbers (degrees, km, timestamps) are modelled as rationals `ℚ`.
`haversine_km` in the source is a real trigonometric function; the matcher
is embedded parametrically over the distance field `dist` standing for it,
since every claim below concerns the selection and aggregation logic, which
is uniform in the distance values.  The external collaborator
`xarray.open_dataset` is modelled as a map `fs : String → Option Dataset`
(`none` models a file that cannot be opened).
-/

namespace Swot

/-- A variable value stored at one grid cell: a finite number or a
non-finite one (NaN/inf), mirroring the `np.isfinite` test at
`collocation.py:78`. -/
inductive VarVal where
  | finite (q : ℚ)
  | nonfinite
deriving DecidableEq

/-- One grid cell of an overpass dataset: its multi-dimensional index
(one entry per dataset dimension, outermost first), its `lon`/`lat`/`time`
coordinates and its named variable values (co-indexed arrays of the
`GridDataset`). -/
structure Cell where
  idx : List Nat
  lon : ℚ
  lat : ℚ
  time : ℚ
  vars : List (String × VarVal)
deriving DecidableEq

/-- An opened overpass dataset.  `dimNames` are the grid dimension names in
order (outermost first); `cells` lists the grid cells in row-major
(lexicographic multi-index) order.  `hasLon`/`hasLat`/`hasTime` record
whether the corresponding coordinate variable exists in the file; accessing
a missing one raises, as `ds["lon"]` does in the source. -/
structure Dataset where
  dimNames : List String
  cells : List Cell
  hasLon : Bool
  hasLat : Bool
  hasTime : Bool
deriving DecidableEq

/-- One result row of `collocate_buoy_to_file` (`collocation.py:65-72`):
the keys `buoy`, `file`, `pixel_lon`, `pixel_lat`, `pixel_time`,
`distance_km`, plus the extracted variable entries in request order
(`some q` for a finite value, `none` for a present-but-non-finite one;
an absent variable contributes no entry at all). -/
structure MatchRow where
  buoy : String
  file : String
  pixel_lon : ℚ
  pixel_lat : ℚ
  pixel_time : ℚ
  distance_km : ℚ
  vars : List (String × Option ℚ)
deriving DecidableEq

/-- The bounding-box crop condition of `collocation.py:39-43`:
`lon` and `lat` of the cell within the buoy position ± `deg_pad`,
all four comparisons inclusive. -/
def inBox (blon blat deg_pad : ℚ) (c : Cell) : Bool :=
  decide (blon - deg_pad ≤ c.lon) && decide (c.lon ≤ blon + deg_pad) &&
  decide (blat - deg_pad ≤ c.lat) && decide (c.lat ≤ blat + deg_pad)

/-- The cells surviving the crop `ds.where(..., drop=True)`
(`collocation.py:39-43`).  Cells outside the box become all-NaN and can
never enter the distance mask, so the cropped dataset is observationally
the filtered cell list. -/
def cropCells (ds : Dataset) (blon blat deg_pad : ℚ) : List Cell :=
  ds.cells.filter (inBox blon blat deg_pad)

/-- Position of a dimension name in the dimension list of the dataset. -/
def dimIndex : List String → String → Option Nat
  | [], _ => none
  | d :: ds, name => if d = name then some 0 else (dimIndex ds name).map (· + 1)

/-- Size of dimension `i` after the crop: `where(..., drop=True)` keeps
exactly the index positions along each dimension at which some cell
satisfies the condition, so the size is the number of distinct surviving
index values along that dimension. -/
def dimSizeAfterCrop (live : List Cell) (i : Nat) : Nat :=
  ((live.map (fun c => c.idx.getD i 0)).dedup).length

/-- `ds_cut.dims.get(name, 0)` (`collocation.py:45`): the cropped size of
the named dimension, defaulting to `0` when the dataset has no dimension
of that name. -/
def dims_get (ds : Dataset) (live : List Cell) (name : String) : Nat :=
  match dimIndex ds.dimNames name with
  | none => 0
  | some i => dimSizeAfterCrop live i

/-- The cells of the cropped dataset whose distance to the buoy is within
the search radius: the mask `d_km <= R_km` of `collocation.py:57`
(inclusive boundary). -/
def maskedCells (dist : ℚ → ℚ → ℚ → ℚ → ℚ) (ds : Dataset)
    (blon blat R_km : ℚ) : List Cell :=
  (cropCells ds blon blat (R_km / 111)).filter
    (fun c => decide (dist c.lon c.lat blon blat ≤ R_km))

/-- One step of the running minimum: keep the incumbent unless the new
element is strictly smaller, which is how `argmin` retains the first
(row-major) occurrence of the minimum. -/
def pickMin {α : Type} (f : α → ℚ) (b y : α) : α :=
  if f y < f b then y else b

/-- The selected element of `d_km.where(mask).argmin(...)`
(`collocation.py:62-63`): the first minimum of `f` over a nonempty list
in list order (row-major order of the cropped grid). -/
def selectFirstMin {α : Type} (f : α → ℚ) (x : α) (xs : List α) : α :=
  xs.foldl (pickMin f) x

/-- Variable extraction of `collocation.py:74-78`: for each requested name
present in the dataset, record `float(val)` when finite and null when not;
an absent name contributes nothing. -/
def extractVars (vnames : List String) (c : Cell) : List (String × Option ℚ) :=
  vnames.filterMap (fun v =>
    match List.lookup v c.vars with
    | some (.finite q) => some (v, some q)
    | some .nonfinite => some (v, none)
    | none => none)

/-- The result row built at `collocation.py:65-78` for the selected cell. -/
def mkRow (dist : ℚ → ℚ → ℚ → ℚ → ℚ) (nc_path buoy_name : String)
    (blon blat : ℚ) (vnames : List String) (c : Cell) : MatchRow :=
  { buoy := buoy_name
    file := nc_path
    pixel_lon := c.lon
    pixel_lat := c.lat
    pixel_time := c.time
    distance_km := dist c.lon c.lat blon blat
    vars := extractVars vnames c }

/-- `collocate_buoy_to_file` (`collocation.py:14-81`).  Returns the
outcome of the Python function (`.ok (some row)` a match, `.ok none` no match,
`.error` an uncaught exception) paired with a flag that is `true` exactly
when no open dataset handle remains at exit (the source calls
`ds.close()` only at lines 46, 59 and 80; an exception raised in between
leaves the handle open).  Error paths modelled: the file cannot be opened
(`xr.open_dataset` raises, no handle held yet), the `lon`/`lat`
coordinate is missing (raises at the crop, line 40), the `time`
coordinate is missing (raises while building the row, line 70). -/
def collocate_buoy_to_file (dist : ℚ → ℚ → ℚ → ℚ → ℚ)
    (fs : String → Option Dataset) (nc_path buoy_name : String)
    (blon blat R_km : ℚ) (vnames : List String) :
    Except String (Option MatchRow) × Bool :=
  match fs nc_path with
  | none => (.error ("cannot open " ++ nc_path), true)
  | some ds =>
    if ds.hasLon && ds.hasLat then
      if dims_get ds (cropCells ds blon blat (R_km / 111)) "x" = 0 ∧
          dims_get ds (cropCells ds blon blat (R_km / 111)) "y" = 0 then
        (.ok none, true)
      else
        match maskedCells dist ds blon blat R_km with
        | [] => (.ok none, true)
        | x :: xs =>
          if ds.hasTime then
            (.ok (some (mkRow dist nc_path buoy_name blon blat vnames
              (selectFirstMin (fun c => dist c.lon c.lat blon blat) x xs))), true)
          else
            (.error "KeyError: time", false)
    else
      (.error "KeyError: lon", false)

/-- `candidates.get(name, [])` (`collocation.py:106`): dictionary lookup
with an empty-list default. -/
def lookupD {α : Type} (candidates : List (String × List α)) (name : String) :
    List α :=
  (List.lookup name candidates).getD []

/-- The inner loop of `collocate_all` (`collocation.py:106-109`) over one
candidate files of one buoy: collect the returned rows in file order; an
exception from `collocate_buoy_to_file` propagates (there is no
`try`/`except` in the aggregator). -/
def rowsForBuoy (dist : ℚ → ℚ → ℚ → ℚ → ℚ) (fs : String → Option Dataset)
    (name : String) (blon blat R_km : ℚ) (vnames : List String) :
    List String → Except String (List MatchRow)
  | [] => .ok []
  | f :: rest =>
    match (collocate_buoy_to_file dist fs f name blon blat R_km vnames).1 with
    | .error e => .error e
    | .ok none => rowsForBuoy dist fs name blon blat R_km vnames rest
    | .ok (some r) =>
      match rowsForBuoy dist fs name blon blat R_km vnames rest with
      | .error e => .error e
      | .ok rs => .ok (r :: rs)

/-- The outer loop of `collocate_all` (`collocation.py:104-109`): rows
collected over all buoys in iteration order. -/
def collectRows (dist : ℚ → ℚ → ℚ → ℚ → ℚ) (fs : String → Option Dataset)
    (candidates : List (String × List String)) (R_km : ℚ)
    (vnames : List String) :
    List (String × ℚ × ℚ) → Except String (List MatchRow)
  | [] => .ok []
  | (name, blon, blat) :: bs =>
    match rowsForBuoy dist fs name blon blat R_km vnames
        (lookupD candidates name) with
    | .error e => .error e
    | .ok rs =>
      match collectRows dist fs candidates R_km vnames bs with
      | .error e => .error e
      | .ok rest => .ok (rs ++ rest)

/-- Row order of `sort_values(["buoy", "pixel_time"])`: point name
ascending, then matched time ascending. -/
def rowLe (a b : MatchRow) : Prop :=
  a.buoy < b.buoy ∨ (a.buoy = b.buoy ∧ a.pixel_time ≤ b.pixel_time)

instance : DecidableRel rowLe := fun a b => by
  unfold rowLe; infer_instance

/-- `pd.DataFrame(rows).sort_values(["buoy", "pixel_time"])`
(`collocation.py:110`).  A frame built from a nonempty row list has the
`buoy` and `pixel_time` columns (every row dict contains them) and is
sorted by them; a frame built from an empty row list has no columns at
all, so `sort_values` raises `KeyError` on the missing `buoy` label. -/
def sort_values (rows : List MatchRow) : Except String (List MatchRow) :=
  if rows.isEmpty then .error "KeyError: buoy"
  else .ok (List.insertionSort rowLe rows)

/-- `collocate_all` (`collocation.py:83-110`). -/
def collocate_all (dist : ℚ → ℚ → ℚ → ℚ → ℚ) (fs : String → Option Dataset)
    (candidates : List (String × List String))
    (buoys : List (String × ℚ × ℚ)) (R_km : ℚ) (vnames : List String) :
    Except String (List MatchRow) :=
  match collectRows dist fs candidates R_km vnames buoys with
  | .error e => .error e
  | .ok rows => sort_values rows

/-- The lon/lat extent of an overpass file, as read at
`overpass_index.py:29-32`. -/
structure Extents where
  lon_min : ℚ
  lon_max : ℚ
  lat_min : ℚ
  lat_max : ℚ
deriving DecidableEq

/-- An overpass granule file as seen by the indexer: its name and, when it
can be opened and parsed, its coordinate extents (`none` models a file
whose open fails and is skipped with a logged warning,
`overpass_index.py:38-39`). -/
structure NcFile where
  name : String
  extents : Option Extents
deriving DecidableEq

/-- The bounding-box test of `overpass_index.py:34-35`: both coordinates
of the buoy within the file extent padded by `deg_pad`, inclusive. -/
def fileCond (e : Extents) (blon blat deg_pad : ℚ) : Bool :=
  decide (e.lon_min - deg_pad ≤ blon) && decide (blon ≤ e.lon_max + deg_pad) &&
  decide (e.lat_min - deg_pad ≤ blat) && decide (blat ≤ e.lat_max + deg_pad)

/-- Append file `f` to the candidate list of key `name`
(`candidates[name].append(f)`, `overpass_index.py:36`). -/
def appendTo (cand : List (String × List NcFile)) (name : String) (f : NcFile) :
    List (String × List NcFile) :=
  cand.map (fun p => if p.1 = name then (p.1, p.2 ++ [f]) else p)

/-- The body of the file loop of `index_overpasses`
(`overpass_index.py:27-39`): an unreadable file is skipped; otherwise
every buoy inside the padded extent gets the file appended. -/
def indexStep (buoys : List (String × ℚ × ℚ)) (deg_pad : ℚ)
    (cand : List (String × List NcFile)) (f : NcFile) :
    List (String × List NcFile) :=
  match f.extents with
  | none => cand
  | some e =>
    buoys.foldl (fun c b =>
      if fileCond e b.2.1 b.2.2 deg_pad then appendTo c b.1 f else c) cand

/-- `sorted(folder.glob("*.nc"))` (`overpass_index.py:26`): the granule
files of the folder in ascending name order. -/
def sortFilesByName (files : List NcFile) : List NcFile :=
  List.insertionSort (fun a b => a.name ≤ b.name) files

/-- `index_overpasses` (`overpass_index.py:4-41`): candidate lists keyed
by buoy name, initialised empty for every buoy, filled by scanning the
files of the folder in sorted name order. -/
def index_overpasses (files : List NcFile) (buoys : List (String × ℚ × ℚ))
    (R_km : ℚ) : List (String × List NcFile) :=
  let deg_pad := R_km / 111
  (sortFilesByName files).foldl (indexStep buoys deg_pad)
    (buoys.map (fun b => (b.1, [])))

lemma selectFirstMin_eq_nil {α : Type} (f : α → ℚ) (x : α) :
    selectFirstMin f x [] = x := rfl

lemma selectFirstMin_eq_cons {α : Type} (f : α → ℚ) (x y : α) (ys : List α) :
    selectFirstMin f x (y :: ys) = selectFirstMin f (pickMin f x y) ys := rfl

/-- `selectFirstMin` returns the first minimum: the input list splits at the
selected element, everything before it is strictly larger, and nothing in
the list is smaller. -/
lemma selectFirstMin_spec {α : Type} (f : α → ℚ) :
    ∀ (xs : List α) (x : α), ∃ l₁ l₂,
      x :: xs = l₁ ++ selectFirstMin f x xs :: l₂ ∧
      (∀ y ∈ l₁, f (selectFirstMin f x xs) < f y) ∧
      (∀ y ∈ x :: xs, f (selectFirstMin f x xs) ≤ f y) := by
  intro xs
  induction xs with
  | nil =>
    intro x
    exact ⟨[], [], rfl, by simp, by simp [selectFirstMin_eq_nil]⟩
  | cons y ys ih =>
    intro x
    rw [selectFirstMin_eq_cons]
    by_cases hxy : f y < f x
    · have hp : pickMin f x y = y := by simp [pickMin, hxy]
      rw [hp]
      obtain ⟨l₁, l₂, heq, hlt, hle⟩ := ih y
      have hry : f (selectFirstMin f y ys) ≤ f y := hle y (List.mem_cons_self _ _)
      refine ⟨x :: l₁, l₂, ?_, ?_, ?_⟩
      · rw [List.cons_append, ← heq]
      · intro z hz
        rcases List.mem_cons.mp hz with rfl | hzl
        · exact lt_of_le_of_lt hry hxy
        · exact hlt z hzl
      · intro z hz
        rcases List.mem_cons.mp hz with rfl | hzy
        · exact le_of_lt (lt_of_le_of_lt hry hxy)
        · exact hle z hzy
    · have hp : pickMin f x y = x := by simp [pickMin, hxy]
      rw [hp]
      obtain ⟨l₁, l₂, heq, hlt, hle⟩ := ih x
      cases l₁ with
      | nil =>
        obtain ⟨hrx, hl₂⟩ := List.cons_eq_cons.mp (by simpa using heq)
        refine ⟨[], y :: ys, ?_, by simp, ?_⟩
        · rw [List.nil_append, ← hrx]
        · intro z hz
          rcases List.mem_cons.mp hz with rfl | hzy
          · exact le_of_eq (congrArg f hrx.symm)
          · rcases List.mem_cons.mp hzy with rfl | hzys
            · exact (congrArg f hrx.symm).trans_le (le_of_not_lt hxy)
            · exact hle z (List.mem_cons_of_mem _ hzys)
      | cons a l₁' =>
        obtain ⟨hax, hys⟩ := List.cons_eq_cons.mp (by simpa using heq)
        have hrltx : f (selectFirstMin f x ys) < f x :=
          hax ▸ hlt a (List.mem_cons_self _ _)
        refine ⟨x :: y :: l₁', l₂, ?_, ?_, ?_⟩
        · rw [List.cons_append, List.cons_append, ← hys]
        · intro z hz
          rcases List.mem_cons.mp hz with rfl | hz'
          · exact hrltx
          · rcases List.mem_cons.mp hz' with rfl | hzl
            · exact lt_of_lt_of_le hrltx (le_of_not_lt hxy)
            · exact hlt z (List.mem_cons_of_mem _ hzl)
        · intro z hz
          rcases List.mem_cons.mp hz with rfl | hz'
          · exact le_of_lt hrltx
          · rcases List.mem_cons.mp hz' with rfl | hzys
            · exact le_of_lt (lt_of_lt_of_le hrltx (le_of_not_lt hxy))
            · exact hle z (List.mem_cons_of_mem _ hzys)

/-- The selected element is a member of the list. -/
lemma selectFirstMin_mem {α : Type} (f : α → ℚ) (x : α) (xs : List α) :
    selectFirstMin f x xs ∈ x :: xs := by
  obtain ⟨l₁, l₂, heq, -, -⟩ := selectFirstMin_spec f xs x
  rw [heq]
  exact List.mem_append.mpr (Or.inr (List.mem_cons_self _ _))

/-- Decomposition of a successful match: when `collocate_buoy_to_file`
returns a row, the file opened to a dataset, the mask was nonempty, and
the row was built from the first minimum-distance masked cell. -/
lemma collocate_ok_some {dist : ℚ → ℚ → ℚ → ℚ → ℚ} {fs : String → Option Dataset}
    {nc_path buoy_name : String} {blon blat R_km : ℚ} {vnames : List String}
    {row : MatchRow}
    (h : (collocate_buoy_to_file dist fs nc_path buoy_name blon blat R_km vnames).1 =
      .ok (some row)) :
    ∃ ds x xs, fs nc_path = some ds ∧
      maskedCells dist ds blon blat R_km = x :: xs ∧
      row = mkRow dist nc_path buoy_name blon blat vnames
        (selectFirstMin (fun c => dist c.lon c.lat blon blat) x xs) := by
  unfold collocate_buoy_to_file at h
  cases hfs : fs nc_path with
  | none => simp only [hfs] at h; simp at h
  | some ds =>
    simp only [hfs] at h
    by_cases hl : (ds.hasLon && ds.hasLat : Bool)
    · rw [if_pos hl] at h
      by_cases hd : dims_get ds (cropCells ds blon blat (R_km / 111)) "x" = 0 ∧
          dims_get ds (cropCells ds blon blat (R_km / 111)) "y" = 0
      · rw [if_pos hd] at h; simp at h
      · rw [if_neg hd] at h
        cases hm : maskedCells dist ds blon blat R_km with
        | nil => simp only [hm] at h; simp at h
        | cons x xs =>
          simp only [hm] at h
          by_cases ht : (ds.hasTime : Bool)
          · rw [if_pos ht] at h
            simp only [Except.ok.injEq, Option.some.injEq] at h
            exact ⟨ds, x, xs, rfl, hm, h.symm⟩
          · rw [if_neg ht] at h; simp at h
    · rw [if_neg hl] at h; simp at h

/-- Membership in the mask forces distance within the radius (the mask is
the comparison `d_km <= R_km`). -/
lemma mem_maskedCells {dist : ℚ → ℚ → ℚ → ℚ → ℚ} {ds : Dataset}
    {blon blat R_km : ℚ} {c : Cell}
    (hc : c ∈ maskedCells dist ds blon blat R_km) :
    dist c.lon c.lat blon blat ≤ R_km := by
  unfold maskedCells at hc
  simpa using List.of_mem_filter hc

/-- Claim C5: every Match emitted by `collocate_buoy_to_file` has
`distance_km ≤ R_km`.  The mask of `collocation.py:57` uses an inclusive
comparison and the distance of the row is read at a masked cell, so a cell at
exactly `R_km` is eligible (exercised by the witness) and a cell strictly
beyond `R_km` can never be selected. -/
theorem match_distance_le_radius (dist : ℚ → ℚ → ℚ → ℚ → ℚ)
    (fs : String → Option Dataset) (nc_path buoy_name : String)
    (blon blat R_km : ℚ) (vnames : List String) (row : MatchRow)
    (h : (collocate_buoy_to_file dist fs nc_path buoy_name blon blat R_km vnames).1 =
      .ok (some row)) :
    row.distance_km ≤ R_km := by
  obtain ⟨ds, x, xs, -, hm, hrow⟩ := collocate_ok_some h
  have hmem : selectFirstMin (fun c => dist c.lon c.lat blon blat) x xs ∈
      maskedCells dist ds blon blat R_km := by
    rw [hm]
    exact selectFirstMin_mem _ _ _
  have hle := mem_maskedCells hmem
  rw [hrow]
  simpa [mkRow] using hle

/-- A name absent from the dimension list has no index. -/
lemma dimIndex_eq_none {l : List String} {name : String} (h : name ∉ l) :
    dimIndex l name = none := by
  induction l with
  | nil => rfl
  | cons d ds ih =>
    have hne : d ≠ name := fun hd => h (hd ▸ List.mem_cons_self _ _)
    have hns : name ∉ ds := fun hm => h (List.mem_cons_of_mem _ hm)
    simp [dimIndex, hne, ih hns]

/-- Claim C9: when the dimensions of the dataset include neither `x` nor `y`,
`ds_cut.dims.get("x", 0)` and `ds_cut.dims.get("y", 0)` both default to 0
(`collocation.py:45`), so `collocate_buoy_to_file` reports no match (and
closes the handle) regardless of the contents of the grid — even if cells lie
within the search radius. -/
theorem no_xy_dims_returns_none (dist : ℚ → ℚ → ℚ → ℚ → ℚ)
    (fs : String → Option Dataset) (nc_path buoy_name : String)
    (blon blat R_km : ℚ) (vnames : List String) (ds : Dataset)
    (hfs : fs nc_path = some ds) (hlon : ds.hasLon = true) (hlat : ds.hasLat = true)
    (hx : "x" ∉ ds.dimNames) (hy : "y" ∉ ds.dimNames) :
    collocate_buoy_to_file dist fs nc_path buoy_name blon blat R_km vnames =
      (.ok none, true) := by
  unfold collocate_buoy_to_file
  simp only [hfs]
  rw [if_pos (by simp [hlon, hlat])]
  have h1 : dims_get ds (cropCells ds blon blat (R_km / 111)) "x" = 0 := by
    unfold dims_get
    rw [dimIndex_eq_none hx]
  have h2 : dims_get ds (cropCells ds blon blat (R_km / 111)) "y" = 0 := by
    unfold dims_get
    rw [dimIndex_eq_none hy]
  rw [if_pos ⟨h1, h2⟩]

/-- Claim C6: when several masked cells tie at the minimal distance, the
selected cell is the lexicographically first grid index (outermost
dimension major); `argmin` over the row-major flattened array returns the
first occurrence of the minimum.  Selection is a pure function of the
inputs, hence deterministic. -/
theorem tie_break_first_index (dist : ℚ → ℚ → ℚ → ℚ → ℚ)
    (fs : String → Option Dataset) (nc_path buoy_name : String)
    (blon blat R_km : ℚ) (vnames : List String) (row : MatchRow) (ds : Dataset)
    (hfs : fs nc_path = some ds)
    (hsorted : ds.cells.Pairwise (fun a b => List.Lex (· < ·) a.idx b.idx))
    (h : (collocate_buoy_to_file dist fs nc_path buoy_name blon blat R_km vnames).1 =
      .ok (some row)) :
    ∃ c ∈ maskedCells dist ds blon blat R_km,
      row = mkRow dist nc_path buoy_name blon blat vnames c ∧
      (∀ c' ∈ maskedCells dist ds blon blat R_km,
        dist c.lon c.lat blon blat ≤ dist c'.lon c'.lat blon blat) ∧
      (∀ c' ∈ maskedCells dist ds blon blat R_km,
        dist c'.lon c'.lat blon blat = dist c.lon c.lat blon blat →
          c.idx = c'.idx ∨ List.Lex (· < ·) c.idx c'.idx) := by
  obtain ⟨ds', x, xs, hfs', hm, hrow⟩ := collocate_ok_some h
  rw [hfs] at hfs'
  injection hfs' with hds
  subst hds
  obtain ⟨l₁, l₂, heq, hlt, hle⟩ :=
    selectFirstMin_spec (fun c => dist c.lon c.lat blon blat) xs x
  refine ⟨selectFirstMin (fun c => dist c.lon c.lat blon blat) x xs, ?_, hrow, ?_, ?_⟩
  · rw [hm]
    exact selectFirstMin_mem _ _ _
  · intro c' hc'
    rw [hm] at hc'
    exact hle c' hc'
  · intro c' hc' hdist
    have hpair : (maskedCells dist ds blon blat R_km).Pairwise
        (fun a b => List.Lex (· < ·) a.idx b.idx) := by
      unfold maskedCells cropCells
      exact (hsorted.filter _).filter _
    rw [hm, heq] at hc' hpair
    rcases List.mem_append.mp hc' with hmem₁ | hmem₂
    · exact absurd hdist (ne_of_gt (hlt c' hmem₁))
    · rcases List.mem_cons.mp hmem₂ with hceq | hmem₂'
      · exact Or.inl (congrArg Cell.idx hceq.symm)
      · obtain ⟨-, h₂, -⟩ := List.pairwise_append.mp hpair
        exact Or.inr ((List.pairwise_cons.mp h₂).1 c' hmem₂')

/-- The value a requested variable contributes to a row: `some (some q)`
present-and-finite, `some none` present-but-non-finite, `none` absent. -/
def valOf (c : Cell) (v : String) : Option (Option ℚ) :=
  match List.lookup v c.vars with
  | some (.finite q) => some (some q)
  | some .nonfinite => some none
  | none => none

/-- Looking a requested name up in the extracted variable entries yields
exactly its dataset status. -/
lemma lookup_extractVars (c : Cell) (v : String) :
    ∀ vnames : List String, List.lookup v (extractVars vnames c) =
      if v ∈ vnames then valOf c v else none := by
  intro vnames
  induction vnames with
  | nil => simp [extractVars]
  | cons w ws ih =>
    by_cases hvw : v = w
    · subst hvw
      cases hcv : List.lookup v c.vars with
      | none =>
        have hval : valOf c v = none := by simp [valOf, hcv]
        have hext : extractVars (v :: ws) c = extractVars ws c := by
          simp [extractVars, List.filterMap_cons, hcv]
        rw [hext, ih, hval]
        by_cases hvs : v ∈ ws <;> simp [hvs]
      | some val =>
        cases val with
        | finite q =>
          simp [extractVars, List.filterMap_cons, hcv, valOf, List.lookup]
        | nonfinite =>
          simp [extractVars, List.filterMap_cons, hcv, valOf, List.lookup]
    · have hbeq : (v == w) = false := beq_eq_false_iff_ne.mpr hvw
      cases hcw : List.lookup w c.vars with
      | none =>
        simp only [extractVars, List.filterMap_cons, hcw] at ih ⊢
        rw [ih]
        simp [List.mem_cons, hvw]
      | some val =>
        cases val with
        | finite q =>
          simp only [extractVars, List.filterMap_cons, hcw, List.lookup, hbeq] at ih ⊢
          rw [ih]
          simp [List.mem_cons, hvw]
        | nonfinite =>
          simp only [extractVars, List.filterMap_cons, hcw, List.lookup, hbeq] at ih ⊢
          rw [ih]
          simp [List.mem_cons, hvw]

/-- Claim C8: in a successful match, a requested variable present in the
dataset with a finite value at the matched cell appears in the row with
that value; present but non-finite appears as null; absent from the
dataset is omitted from the row entirely. -/
theorem variable_extraction_policy (dist : ℚ → ℚ → ℚ → ℚ → ℚ)
    (fs : String → Option Dataset) (nc_path buoy_name : String)
    (blon blat R_km : ℚ) (vnames : List String) (row : MatchRow) (v : String)
    (h : (collocate_buoy_to_file dist fs nc_path buoy_name blon blat R_km vnames).1 =
      .ok (some row))
    (hv : v ∈ vnames) :
    ∃ ds c, fs nc_path = some ds ∧ c ∈ maskedCells dist ds blon blat R_km ∧
      row = mkRow dist nc_path buoy_name blon blat vnames c ∧
      (∀ q, List.lookup v c.vars = some (.finite q) →
        List.lookup v row.vars = some (some q)) ∧
      (List.lookup v c.vars = some .nonfinite → List.lookup v row.vars = some none) ∧
      (List.lookup v c.vars = none → List.lookup v row.vars = none) := by
  obtain ⟨ds, x, xs, hfs, hm, hrow⟩ := collocate_ok_some h
  refine ⟨ds, selectFirstMin (fun c => dist c.lon c.lat blon blat) x xs, hfs, ?_,
    hrow, ?_, ?_, ?_⟩
  · rw [hm]
    exact selectFirstMin_mem _ _ _
  · intro q hq
    rw [hrow]
    show List.lookup v (extractVars vnames _) = some (some q)
    rw [lookup_extractVars, if_pos hv, valOf, hq]
  · intro hq
    rw [hrow]
    show List.lookup v (extractVars vnames _) = some none
    rw [lookup_extractVars, if_pos hv, valOf, hq]
  · intro hq
    rw [hrow]
    show List.lookup v (extractVars vnames _) = none
    rw [lookup_extractVars, if_pos hv, valOf, hq]

/-- Whether the indexer adds file `f` for a buoy at `(blon, blat)`: the
file opened successfully and the buoy lies in its padded extent
(`overpass_index.py:27-36`). -/
def fileGood (f : NcFile) (blon blat deg_pad : ℚ) : Bool :=
  match f.extents with
  | none => false
  | some e => fileCond e blon blat deg_pad

/-- `appendTo` changes only the list of the looked-up key, appending the file. -/
lemma lookup_appendTo (cand : List (String × List NcFile)) (name name' : String)
    (f : NcFile) :
    List.lookup name (appendTo cand name' f) =
      if name = name' then (List.lookup name cand).map (· ++ [f])
      else List.lookup name cand := by
  induction cand with
  | nil => simp [appendTo]
  | cons p ps ih =>
    obtain ⟨k, l⟩ := p
    have hstep : appendTo ((k, l) :: ps) name' f =
        (if k = name' then (k, l ++ [f]) else (k, l)) :: appendTo ps name' f := by
      simp only [appendTo, List.map_cons]
    rw [hstep]
    by_cases hk : k = name'
    · rw [if_pos hk]
      by_cases hn : name = k
      · subst hn
        rw [if_pos hk]
        simp [List.lookup]
      · have hbeq : (name == k) = false := beq_eq_false_iff_ne.mpr hn
        simp only [List.lookup, hbeq]
        rw [ih]
    · rw [if_neg hk]
      by_cases hn : name = k
      · subst hn
        rw [if_neg hk]
        simp [List.lookup]
      · have hbeq : (name == k) = false := beq_eq_false_iff_ne.mpr hn
        simp only [List.lookup, hbeq]
        rw [ih]

/-- A buoy fold step never touches keys that are not buoy names. -/
lemma lookup_buoyFold_not_mem (e : Extents) (f : NcFile) (deg_pad : ℚ)
    (name : String) :
    ∀ (bs : List (String × ℚ × ℚ)) (c : List (String × List NcFile)),
      name ∉ bs.map (·.1) →
      List.lookup name (bs.foldl (fun c b =>
        if fileCond e b.2.1 b.2.2 deg_pad then appendTo c b.1 f else c) c) =
        List.lookup name c := by
  intro bs
  induction bs with
  | nil => intro c _; rfl
  | cons b bs' ih =>
    intro c hnm
    have hb : name ≠ b.1 := fun h => hnm (h ▸ List.mem_map.mpr ⟨b, List.mem_cons_self _ _, rfl⟩)
    have hbs : name ∉ bs'.map (·.1) := fun h => hnm (by simp [List.mem_map] at h ⊢; tauto)
    rw [List.foldl_cons, ih _ hbs]
    by_cases hc : fileCond e b.2.1 b.2.2 deg_pad
    · rw [if_pos hc, lookup_appendTo, if_neg hb]
    · rw [if_neg hc]

/-- Effect of one indexed file on the candidate list of one buoy: the file
is appended exactly when its padded extent contains the buoy. -/
lemma lookup_indexStep (buoys : List (String × ℚ × ℚ)) (deg_pad : ℚ)
    (name : String) (blon blat : ℚ) (f : NcFile)
    (hnd : (buoys.map (·.1)).Nodup) (hb : (name, (blon, blat)) ∈ buoys) :
    ∀ (cand : List (String × List NcFile)) (l : List NcFile),
      List.lookup name cand = some l →
      List.lookup name (indexStep buoys deg_pad cand f) =
        some (l ++ if fileGood f blon blat deg_pad then [f] else []) := by
  cases hf : f.extents with
  | none =>
    intro cand l hl
    simp [indexStep, hf, fileGood, hl]
  | some e =>
    simp only [indexStep, hf, fileGood]
    induction buoys with
    | nil => cases hb
    | cons b bs ih =>
      intro cand l hl
      rcases List.mem_cons.mp hb with hbb | hbs
      · have hname : b.1 = name := by rw [← hbb]
        have hco : b.2 = (blon, blat) := by rw [← hbb]
        have hnot : name ∉ bs.map (·.1) := by
          rw [← hname]
          exact (List.nodup_cons.mp hnd).1
        rw [List.foldl_cons]
        by_cases hc : fileCond e blon blat deg_pad
        · rw [if_pos (by rw [hco]; exact hc)]
          rw [lookup_buoyFold_not_mem e f deg_pad name bs _ hnot]
          rw [hname, lookup_appendTo, if_pos rfl, hl]
          simp [hc]
        · rw [if_neg (by rw [hco]; exact hc)]
          rw [lookup_buoyFold_not_mem e f deg_pad name bs _ hnot]
          rw [hl]
          simp [hc]
      · have hbn : b.1 ≠ name := by
          intro hbn
          have hmm : name ∈ bs.map (·.1) := List.mem_map.mpr ⟨_, hbs, rfl⟩
          rw [← hbn] at hmm
          exact (List.nodup_cons.mp hnd).1 hmm
        have hnd' : (bs.map (·.1)).Nodup := (List.nodup_cons.mp hnd).2
        rw [List.foldl_cons]
        by_cases hc : fileCond e b.2.1 b.2.2 deg_pad
        · refine ih hnd' hbs _ l ?_
          rw [if_pos hc, lookup_appendTo, if_neg (Ne.symm hbn), hl]
        · rw [if_neg hc]
          exact ih hnd' hbs cand l hl

/-- Folding the indexer over a file list appends exactly the good files in
scan order. -/
lemma lookup_index_foldl (buoys : List (String × ℚ × ℚ)) (deg_pad : ℚ)
    (name : String) (blon blat : ℚ)
    (hnd : (buoys.map (·.1)).Nodup) (hb : (name, (blon, blat)) ∈ buoys) :
    ∀ (fl : List NcFile) (cand : List (String × List NcFile)) (l : List NcFile),
      List.lookup name cand = some l →
      List.lookup name (fl.foldl (indexStep buoys deg_pad) cand) =
        some (l ++ fl.filter (fun f => fileGood f blon blat deg_pad)) := by
  intro fl
  induction fl with
  | nil => intro cand l hl; simpa using hl
  | cons f fl' ih =>
    intro cand l hl
    rw [List.foldl_cons]
    have hstep := lookup_indexStep buoys deg_pad name blon blat f hnd hb cand l hl
    rw [ih _ _ hstep, List.filter_cons]
    by_cases hg : fileGood f blon blat deg_pad
    · simp [hg]
    · simp [hg]

/-- The initial candidate dictionary maps every buoy name to `[]`. -/
lemma lookup_init (name : String) :
    ∀ bs : List (String × ℚ × ℚ), name ∈ bs.map (·.1) →
      List.lookup name (bs.map (fun b => (b.1, ([] : List NcFile)))) = some [] := by
  intro bs
  induction bs with
  | nil => intro h; cases h
  | cons b bs' ih =>
    intro h
    by_cases hn : name = b.1
    · simp [List.lookup, hn]
    · have hbeq : (name == b.1) = false := beq_eq_false_iff_ne.mpr hn
      have : name ∈ bs'.map (·.1) := by
        rcases List.mem_cons.mp h with h' | h'
        · exact absurd h' hn
        · exact h'
      simp only [List.map_cons, List.lookup, hbeq]
      exact ih this

/-- Claim C7: a scanned file lands in the candidate list of a buoy iff it could
be opened and the longitude and latitude of the buoy lie within the file
extents padded by `R_km / 111` on both axes, all bounds inclusive
(`overpass_index.py:33-36`). -/
theorem candidate_iff_padded_extent (files : List NcFile)
    (buoys : List (String × ℚ × ℚ)) (R_km : ℚ) (name : String) (blon blat : ℚ)
    (f : NcFile)
    (hnd : (buoys.map (·.1)).Nodup) (hb : (name, (blon, blat)) ∈ buoys) :
    f ∈ lookupD (index_overpasses files buoys R_km) name ↔
      f ∈ files ∧ ∃ e, f.extents = some e ∧
        e.lon_min - R_km / 111 ≤ blon ∧ blon ≤ e.lon_max + R_km / 111 ∧
        e.lat_min - R_km / 111 ≤ blat ∧ blat ≤ e.lat_max + R_km / 111 := by
  have hinit := lookup_init name buoys (List.mem_map.mpr ⟨_, hb, rfl⟩)
  have hfold := lookup_index_foldl buoys (R_km / 111) name blon blat hnd hb
    (sortFilesByName files) _ [] hinit
  unfold index_overpasses lookupD
  rw [hfold]
  simp only [Option.getD_some, List.nil_append, List.mem_filter]
  constructor
  · rintro ⟨hmem, hgood⟩
    refine ⟨?_, ?_⟩
    · exact (List.perm_insertionSort _ files).mem_iff.mp hmem
    · cases hf : f.extents with
      | none => rw [fileGood, hf] at hgood; cases hgood
      | some e =>
        rw [fileGood, hf] at hgood
        refine ⟨e, rfl, ?_⟩
        simpa [fileCond, and_assoc] using hgood
  · rintro ⟨hmem, e, hf, hbox⟩
    refine ⟨(List.perm_insertionSort _ files).mem_iff.mpr hmem, ?_⟩
    rw [fileGood, hf]
    simpa [fileCond, and_assoc] using hbox

/-- `appendTo` preserves the key list. -/
lemma map_fst_appendTo (cand : List (String × List NcFile)) (name : String)
    (f : NcFile) :
    (appendTo cand name f).map (·.1) = cand.map (·.1) := by
  induction cand with
  | nil => rfl
  | cons p ps ih =>
    have hstep : appendTo (p :: ps) name f =
        (if p.1 = name then (p.1, p.2 ++ [f]) else p) :: appendTo ps name f := by
      simp only [appendTo, List.map_cons]
    rw [hstep, List.map_cons, ih, List.map_cons]
    by_cases hk : p.1 = name <;> simp [hk]

/-- A buoy fold preserves the key list. -/
lemma map_fst_buoyFold (e : Extents) (f : NcFile) (deg_pad : ℚ) :
    ∀ (bs : List (String × ℚ × ℚ)) (cand : List (String × List NcFile)),
      ((bs.foldl (fun c b =>
        if fileCond e b.2.1 b.2.2 deg_pad then appendTo c b.1 f else c) cand)).map (·.1) =
        cand.map (·.1) := by
  intro bs
  induction bs with
  | nil => intro cand; rfl
  | cons b bs' ih =>
    intro cand
    rw [List.foldl_cons]
    by_cases hc : fileCond e b.2.1 b.2.2 deg_pad
    · rw [if_pos hc, ih, map_fst_appendTo]
    · rw [if_neg hc, ih]

/-- One indexing step preserves the key list. -/
lemma map_fst_indexStep (buoys : List (String × ℚ × ℚ)) (deg_pad : ℚ)
    (cand : List (String × List NcFile)) (f : NcFile) :
    (indexStep buoys deg_pad cand f).map (·.1) = cand.map (·.1) := by
  unfold indexStep
  cases hf : f.extents with
  | none => simp only [hf]
  | some e =>
    simp only [hf]
    exact map_fst_buoyFold e f deg_pad buoys cand

/-- The whole scan preserves the key list. -/
lemma map_fst_index_foldl (buoys : List (String × ℚ × ℚ)) (deg_pad : ℚ) :
    ∀ (fl : List NcFile) (cand : List (String × List NcFile)),
      (fl.foldl (indexStep buoys deg_pad) cand).map (·.1) = cand.map (·.1) := by
  intro fl
  induction fl with
  | nil => intro cand; rfl
  | cons f fl' ih =>
    intro cand
    rw [List.foldl_cons, ih, map_fst_indexStep]

/-- Two candidate dictionaries with identical lookups drive `collectRows`
identically. -/
lemma collectRows_congr (dist : ℚ → ℚ → ℚ → ℚ → ℚ) (fs : String → Option Dataset)
    (c₁ c₂ : List (String × List String)) (R_km : ℚ) (vnames : List String)
    (hlk : ∀ nm, lookupD c₁ nm = lookupD c₂ nm) :
    ∀ bs : List (String × ℚ × ℚ),
      collectRows dist fs c₁ R_km vnames bs = collectRows dist fs c₂ R_km vnames bs := by
  intro bs
  induction bs with
  | nil => rfl
  | cons b bs' ih =>
    obtain ⟨name, blon, blat⟩ := b
    unfold collectRows
    rw [hlk name, ih]

/-- Claim C10: the candidate set returned by `index_overpasses` has exactly
the buoy names as its key list — a buoy matching no file keeps its empty
list rather than being dropped — and `collocate_all` reads a missing key
through `candidates.get(name, [])`, so adding an explicit empty entry for
an absent key changes nothing. -/
theorem candidate_keys_exact_and_missing_key_empty :
    (∀ (files : List NcFile) (buoys : List (String × ℚ × ℚ)) (R_km : ℚ),
      (index_overpasses files buoys R_km).map (·.1) = buoys.map (·.1)) ∧
    (∀ (dist : ℚ → ℚ → ℚ → ℚ → ℚ) (fs : String → Option Dataset)
      (c : List (String × List String)) (name : String)
      (buoys : List (String × ℚ × ℚ)) (R_km : ℚ) (vnames : List String),
      name ∉ c.map (·.1) →
      collocate_all dist fs ((name, []) :: c) buoys R_km vnames =
        collocate_all dist fs c buoys R_km vnames) := by
  constructor
  · intro files buoys R_km
    unfold index_overpasses
    rw [map_fst_index_foldl]
    simp
  · intro dist fs c name buoys R_km vnames hname
    have hlk : ∀ nm, lookupD ((name, ([] : List String)) :: c) nm = lookupD c nm := by
      intro nm
      by_cases hn : nm = name
      · subst hn
        have hnone : List.lookup nm c = none := by
          rw [List.lookup_eq_none_iff]
          intro p hp
          have hne : nm ≠ p.1 :=
            fun h => hname (by rw [h]; exact List.mem_map.mpr ⟨p, hp, rfl⟩)
          simpa using hne
        simp [lookupD, List.lookup, hnone]
      · have hbeq : (nm == name) = false := beq_eq_false_iff_ne.mpr hn
        simp [lookupD, List.lookup, hbeq]
    unfold collocate_all
    rw [collectRows_congr dist fs _ c R_km vnames hlk buoys]

/-- When every candidate pair succeeds, the inner loop returns exactly the
rows of the matching pairs, in file order. -/
lemma rowsForBuoy_eq_ok (dist : ℚ → ℚ → ℚ → ℚ → ℚ) (fs : String → Option Dataset)
    (name : String) (blon blat R_km : ℚ) (vnames : List String) :
    ∀ files : List String,
      (∀ f ∈ files, ∃ o,
        (collocate_buoy_to_file dist fs f name blon blat R_km vnames).1 = .ok o) →
      rowsForBuoy dist fs name blon blat R_km vnames files =
        .ok (files.filterMap (fun f =>
          match (collocate_buoy_to_file dist fs f name blon blat R_km vnames).1 with
          | .ok (some r) => some r
          | _ => none)) := by
  intro files
  induction files with
  | nil => intro _; rfl
  | cons f rest ih =>
    intro h
    obtain ⟨o, ho⟩ := h f (List.mem_cons_self _ _)
    have hrest := ih (fun g hg => h g (List.mem_cons_of_mem _ hg))
    cases o with
    | none =>
      simp only [rowsForBuoy, ho, List.filterMap_cons]
      exact hrest
    | some r =>
      simp only [rowsForBuoy, ho, List.filterMap_cons, hrest]

/-- A successful inner loop means every pair succeeded. -/
lemma rowsForBuoy_ok_forall (dist : ℚ → ℚ → ℚ → ℚ → ℚ) (fs : String → Option Dataset)
    (name : String) (blon blat R_km : ℚ) (vnames : List String) :
    ∀ (files : List String) (rs : List MatchRow),
      rowsForBuoy dist fs name blon blat R_km vnames files = .ok rs →
      ∀ f ∈ files, ∃ o,
        (collocate_buoy_to_file dist fs f name blon blat R_km vnames).1 = .ok o := by
  intro files
  induction files with
  | nil => intro rs _ f hf; cases hf
  | cons g rest ih =>
    intro rs h f hf
    cases hg : (collocate_buoy_to_file dist fs g name blon blat R_km vnames).1 with
    | error e =>
      simp only [rowsForBuoy, hg] at h
      exact Except.noConfusion h
    | ok o =>
      cases o with
      | none =>
        simp only [rowsForBuoy, hg] at h
        rcases List.mem_cons.mp hf with rfl | hf'
        · exact ⟨none, hg⟩
        · exact ih rs h f hf'
      | some r =>
        simp only [rowsForBuoy, hg] at h
        cases hrest : rowsForBuoy dist fs name blon blat R_km vnames rest with
        | error e =>
          rw [hrest] at h
          exact Except.noConfusion h
        | ok rs' =>
          rcases List.mem_cons.mp hf with rfl | hf'
          · exact ⟨some r, hg⟩
          · exact ih rs' hrest f hf'

/-- Permuting the candidate file list of one buoy permutes the collected rows. -/
lemma rowsForBuoy_perm (dist : ℚ → ℚ → ℚ → ℚ → ℚ) (fs : String → Option Dataset)
    (name : String) (blon blat R_km : ℚ) (vnames : List String)
    {files₁ files₂ : List String} {rs₁ rs₂ : List MatchRow}
    (hp : files₁.Perm files₂)
    (h₁ : rowsForBuoy dist fs name blon blat R_km vnames files₁ = .ok rs₁)
    (h₂ : rowsForBuoy dist fs name blon blat R_km vnames files₂ = .ok rs₂) :
    rs₁.Perm rs₂ := by
  have hall₁ := rowsForBuoy_ok_forall dist fs name blon blat R_km vnames files₁ rs₁ h₁
  have hall₂ := rowsForBuoy_ok_forall dist fs name blon blat R_km vnames files₂ rs₂ h₂
  rw [rowsForBuoy_eq_ok dist fs name blon blat R_km vnames files₁ hall₁] at h₁
  rw [rowsForBuoy_eq_ok dist fs name blon blat R_km vnames files₂ hall₂] at h₂
  injection h₁ with h₁
  injection h₂ with h₂
  rw [← h₁, ← h₂]
  exact hp.filterMap _

/-- Pointwise-permuted candidate dictionaries give permuted row lists. -/
lemma collectRows_perm (dist : ℚ → ℚ → ℚ → ℚ → ℚ) (fs : String → Option Dataset)
    (c₁ c₂ : List (String × List String)) (R_km : ℚ) (vnames : List String)
    (hperm : ∀ nm, (lookupD c₁ nm).Perm (lookupD c₂ nm)) :
    ∀ (bs : List (String × ℚ × ℚ)) (rs₁ rs₂ : List MatchRow),
      collectRows dist fs c₁ R_km vnames bs = .ok rs₁ →
      collectRows dist fs c₂ R_km vnames bs = .ok rs₂ →
      rs₁.Perm rs₂ := by
  intro bs
  induction bs with
  | nil =>
    intro rs₁ rs₂ h₁ h₂
    injection h₁ with h₁
    injection h₂ with h₂
    rw [← h₁, ← h₂]
  | cons b bs' ih =>
    intro rs₁ rs₂ h₁ h₂
    obtain ⟨name, blon, blat⟩ := b
    cases ha : rowsForBuoy dist fs name blon blat R_km vnames (lookupD c₁ name) with
    | error e =>
      simp only [collectRows, ha] at h₁
      exact Except.noConfusion h₁
    | ok ra =>
      cases hta : collectRows dist fs c₁ R_km vnames bs' with
      | error e =>
        simp only [collectRows, ha, hta] at h₁
        exact Except.noConfusion h₁
      | ok ta =>
        cases hb : rowsForBuoy dist fs name blon blat R_km vnames (lookupD c₂ name) with
        | error e =>
          simp only [collectRows, hb] at h₂
          exact Except.noConfusion h₂
        | ok rb =>
          cases htb : collectRows dist fs c₂ R_km vnames bs' with
          | error e =>
            simp only [collectRows, hb, htb] at h₂
            exact Except.noConfusion h₂
          | ok tb =>
            simp only [collectRows, ha, hta] at h₁
            simp only [collectRows, hb, htb] at h₂
            injection h₁ with h₁
            injection h₂ with h₂
            rw [← h₁, ← h₂]
            exact (rowsForBuoy_perm dist fs name blon blat R_km vnames
              (hperm name) ha hb).append (ih ta tb hta htb)

/-- Decomposition of a successful aggregation: the collected rows were
nonempty and the table is their sort. -/
lemma collocate_all_ok {dist : ℚ → ℚ → ℚ → ℚ → ℚ} {fs : String → Option Dataset}
    {c : List (String × List String)} {buoys : List (String × ℚ × ℚ)}
    {R_km : ℚ} {vnames : List String} {t : List MatchRow}
    (h : collocate_all dist fs c buoys R_km vnames = .ok t) :
    ∃ rows, collectRows dist fs c R_km vnames buoys = .ok rows ∧
      rows.isEmpty = false ∧ t = List.insertionSort rowLe rows := by
  unfold collocate_all at h
  cases hc : collectRows dist fs c R_km vnames buoys with
  | error e =>
    simp only [hc] at h
    exact Except.noConfusion h
  | ok rows =>
    simp only [hc] at h
    unfold sort_values at h
    by_cases he : rows.isEmpty
    · rw [if_pos he] at h
      exact Except.noConfusion h
    · rw [if_neg he] at h
      injection h with h
      exact ⟨rows, rfl, Bool.of_not_eq_true he, h.symm⟩

instance : IsTrans MatchRow rowLe := by
  constructor
  intro a b c hab hbc
  rcases hab with hab | ⟨hab, hab'⟩
  · rcases hbc with hbc | ⟨hbc, -⟩
    · exact Or.inl (hab.trans hbc)
    · exact Or.inl (hbc ▸ hab)
  · rcases hbc with hbc | ⟨hbc, hbc'⟩
    · exact Or.inl (hab ▸ hbc)
    · exact Or.inr ⟨hab.trans hbc, hab'.trans hbc'⟩

instance : IsTotal MatchRow rowLe := by
  constructor
  intro a b
  rcases lt_trichotomy a.buoy b.buoy with h | h | h
  · exact Or.inl (Or.inl h)
  · rcases le_total a.pixel_time b.pixel_time with ht | ht
    · exact Or.inl (Or.inr ⟨h, ht⟩)
    · exact Or.inr (Or.inr ⟨h.symm, ht⟩)
  · exact Or.inr (Or.inl h)

/-- Strict version of the row order: point name strictly first, then
matched time strictly. -/
def rowLt (a b : MatchRow) : Prop :=
  a.buoy < b.buoy ∨ (a.buoy = b.buoy ∧ a.pixel_time < b.pixel_time)

lemma rowLt_asymm {a b : MatchRow} (h₁ : rowLt a b) (h₂ : rowLt b a) : False := by
  rcases h₁ with h₁ | ⟨h₁, h₁'⟩
  · rcases h₂ with h₂ | ⟨h₂, -⟩
    · exact lt_asymm h₁ h₂
    · exact absurd (h₂ ▸ h₁) (lt_irrefl _)
  · rcases h₂ with h₂ | ⟨-, h₂'⟩
    · exact absurd (h₁ ▸ h₂) (lt_irrefl _)
    · exact lt_asymm h₁' h₂'

instance : IsAntisymm MatchRow rowLt :=
  ⟨fun _ _ h₁ h₂ => (rowLt_asymm h₁ h₂).elim⟩

/-- The sort key of a row: point name and matched time. -/
def rowKey (r : MatchRow) : String × ℚ := (r.buoy, r.pixel_time)

/-- A table sorted under `rowLe` whose keys are pairwise distinct is
sorted under the strict order. -/
lemma sorted_rowLt_of_sorted_rowLe {t : List MatchRow}
    (hs : List.Sorted rowLe t) (hnd : (t.map rowKey).Nodup) :
    List.Sorted rowLt t := by
  have hnd' : t.Pairwise (fun a b => rowKey a ≠ rowKey b) := List.pairwise_map.mp hnd
  refine (hs.and hnd').imp ?_
  rintro a b ⟨hle, hne⟩
  rcases hle with h | ⟨h, h'⟩
  · exact Or.inl h
  · refine Or.inr ⟨h, lt_of_le_of_ne h' ?_⟩
    intro ht
    exact hne (by rw [rowKey, rowKey, h, ht])

/-- A strict `rowLt` implies the non-strict `rowLe`. -/
lemma rowLe_of_rowLt {a b : MatchRow} (h : rowLt a b) : rowLe a b := by
  rcases h with h | ⟨h, h'⟩
  · exact Or.inl h
  · exact Or.inr ⟨h, le_of_lt h'⟩

/-- Strictly ordered rows are not related the other way. -/
lemma not_rowLe_of_rowLt {a b : MatchRow} (h : rowLt a b) : ¬ rowLe b a := by
  intro hba
  rcases h with h | ⟨h, h'⟩
  · rcases hba with hba | ⟨hba, -⟩
    · exact lt_asymm h hba
    · rw [hba] at h
      exact lt_irrefl _ h
  · rcases hba with hba | ⟨-, hba'⟩
    · rw [h] at hba
      exact lt_irrefl _ hba
    · exact lt_irrefl _ (lt_of_lt_of_le h' hba')

/-- Inserting two strictly ordered rows commutes: stable insertion is
order-insensitive for rows that never tie on the sort key. -/
lemma orderedInsert_comm_of_rowLt {x y : MatchRow} (hxy : rowLt x y) :
    ∀ L : List MatchRow,
      List.orderedInsert rowLe x (List.orderedInsert rowLe y L) =
        List.orderedInsert rowLe y (List.orderedInsert rowLe x L) := by
  have hle : rowLe x y := rowLe_of_rowLt hxy
  have hnle : ¬ rowLe y x := not_rowLe_of_rowLt hxy
  intro L
  induction L with
  | nil => simp [List.orderedInsert, hle, hnle]
  | cons c l ih =>
    by_cases hyc : rowLe y c
    · have hxc : rowLe x c := IsTrans.trans x y c hle hyc
      simp [List.orderedInsert, hle, hnle, hyc, hxc]
    · by_cases hxc : rowLe x c
      · simp [List.orderedInsert, hle, hnle, hyc, hxc]
      · simp [List.orderedInsert, hle, hnle, hyc, hxc, ih]

/-- A row strictly comparable with every element of `B` moves freely past
the insertions of `B`. -/
lemma orderedInsert_foldr_comm {a : MatchRow} :
    ∀ B : List MatchRow, (∀ b ∈ B, rowLt a b ∨ rowLt b a) →
      ∀ T, List.orderedInsert rowLe a (B.foldr (List.orderedInsert rowLe) T) =
        B.foldr (List.orderedInsert rowLe) (List.orderedInsert rowLe a T) := by
  intro B
  induction B with
  | nil => intro _ T; rfl
  | cons b B ih =>
    intro hcomp T
    have hcomm : List.orderedInsert rowLe a
        (List.orderedInsert rowLe b (B.foldr (List.orderedInsert rowLe) T)) =
        List.orderedInsert rowLe b
          (List.orderedInsert rowLe a (B.foldr (List.orderedInsert rowLe) T)) := by
      rcases hcomp b (List.mem_cons_self _ _) with h | h
      · exact orderedInsert_comm_of_rowLt h _
      · exact (orderedInsert_comm_of_rowLt h _).symm
    rw [List.foldr_cons, hcomm,
      ih (fun z hz => hcomp z (List.mem_cons_of_mem _ hz)), List.foldr_cons]

/-- Two blocks of pairwise strictly comparable rows may be inserted in
either order. -/
lemma foldr_orderedInsert_blocks_comm :
    ∀ A B : List MatchRow, (∀ a ∈ A, ∀ b ∈ B, rowLt a b ∨ rowLt b a) →
      ∀ S, A.foldr (List.orderedInsert rowLe) (B.foldr (List.orderedInsert rowLe) S) =
        B.foldr (List.orderedInsert rowLe) (A.foldr (List.orderedInsert rowLe) S) := by
  intro A
  induction A with
  | nil => intro B _ S; rfl
  | cons a A ih =>
    intro B hcomp S
    rw [List.foldr_cons, ih B (fun z hz b hb => hcomp z (List.mem_cons_of_mem _ hz) b hb) S,
      orderedInsert_foldr_comm B (fun b hb => hcomp a (List.mem_cons_self _ _) b hb),
      List.foldr_cons]

/-- Sorting an appended list folds the prefix into the sorted suffix. -/
lemma insertionSort_append :
    ∀ A X : List MatchRow,
      List.insertionSort rowLe (A ++ X) =
        A.foldr (List.orderedInsert rowLe) (List.insertionSort rowLe X) := by
  intro A X
  induction A with
  | nil => rfl
  | cons a A ih =>
    simp only [List.cons_append, List.insertionSort, List.foldr_cons, List.append_eq, ih]

/-- A returned row carries the buoy name it was matched for. -/
lemma matchOne_row_buoy {dist : ℚ → ℚ → ℚ → ℚ → ℚ} {fs : String → Option Dataset}
    {f name : String} {blon blat R_km : ℚ} {vnames : List String} {r : MatchRow}
    (h : (collocate_buoy_to_file dist fs f name blon blat R_km vnames).1 =
      .ok (some r)) :
    r.buoy = name := by
  obtain ⟨ds, x, xs, -, -, hrow⟩ := collocate_ok_some h
  rw [hrow]
  rfl

/-- Every row of one inner-loop block carries that block's buoy name. -/
lemma rowsForBuoy_buoy_eq {dist : ℚ → ℚ → ℚ → ℚ → ℚ} {fs : String → Option Dataset}
    {name : String} {blon blat R_km : ℚ} {vnames : List String} :
    ∀ {files : List String} {rs : List MatchRow},
      rowsForBuoy dist fs name blon blat R_km vnames files = .ok rs →
      ∀ r ∈ rs, r.buoy = name := by
  intro files
  induction files with
  | nil =>
    intro rs h r hr
    injection h with h
    rw [← h] at hr
    cases hr
  | cons f rest ih =>
    intro rs h r hr
    cases hf : (collocate_buoy_to_file dist fs f name blon blat R_km vnames).1 with
    | error e =>
      simp only [rowsForBuoy, hf] at h
      exact Except.noConfusion h
    | ok o =>
      cases o with
      | none =>
        simp only [rowsForBuoy, hf] at h
        exact ih h r hr
      | some rr =>
        simp only [rowsForBuoy, hf] at h
        cases hrest : rowsForBuoy dist fs name blon blat R_km vnames rest with
        | error e =>
          rw [hrest] at h
          exact Except.noConfusion h
        | ok rs' =>
          rw [hrest] at h
          injection h with h
          rw [← h] at hr
          rcases List.mem_cons.mp hr with rfl | hr'
          · exact matchOne_row_buoy hf
          · exact ih hrest r hr'

/-- Decomposition of one aggregation step. -/
lemma collectRows_cons_ok {dist : ℚ → ℚ → ℚ → ℚ → ℚ} {fs : String → Option Dataset}
    {c : List (String × List String)} {R_km : ℚ} {vnames : List String}
    {b : String × ℚ × ℚ} {bs : List (String × ℚ × ℚ)} {r : List MatchRow}
    (h : collectRows dist fs c R_km vnames (b :: bs) = .ok r) :
    ∃ A X, rowsForBuoy dist fs b.1 b.2.1 b.2.2 R_km vnames (lookupD c b.1) = .ok A ∧
      collectRows dist fs c R_km vnames bs = .ok X ∧ r = A ++ X := by
  obtain ⟨name, blon, blat⟩ := b
  cases ha : rowsForBuoy dist fs name blon blat R_km vnames (lookupD c name) with
  | error e =>
    simp only [collectRows, ha] at h
    exact Except.noConfusion h
  | ok A =>
    cases hx : collectRows dist fs c R_km vnames bs with
    | error e =>
      simp only [collectRows, ha, hx] at h
      exact Except.noConfusion h
    | ok X =>
      simp only [collectRows, ha, hx] at h
      injection h with h
      exact ⟨A, X, rfl, rfl, h.symm⟩

/-- Composition of one aggregation step. -/
lemma collectRows_cons_eq {dist : ℚ → ℚ → ℚ → ℚ → ℚ} {fs : String → Option Dataset}
    {c : List (String × List String)} {R_km : ℚ} {vnames : List String}
    {b : String × ℚ × ℚ} {bs : List (String × ℚ × ℚ)} {A X : List MatchRow}
    (hA : rowsForBuoy dist fs b.1 b.2.1 b.2.2 R_km vnames (lookupD c b.1) = .ok A)
    (hX : collectRows dist fs c R_km vnames bs = .ok X) :
    collectRows dist fs c R_km vnames (b :: bs) = .ok (A ++ X) := by
  obtain ⟨name, blon, blat⟩ := b
  simp only [collectRows, hA, hX]

/-- A successful aggregation means every buoy's inner loop succeeded. -/
lemma collectRows_ok_forall {dist : ℚ → ℚ → ℚ → ℚ → ℚ} {fs : String → Option Dataset}
    {c : List (String × List String)} {R_km : ℚ} {vnames : List String} :
    ∀ {bs : List (String × ℚ × ℚ)} {rs : List MatchRow},
      collectRows dist fs c R_km vnames bs = .ok rs →
      ∀ b ∈ bs, ∃ rsb,
        rowsForBuoy dist fs b.1 b.2.1 b.2.2 R_km vnames (lookupD c b.1) = .ok rsb := by
  intro bs
  induction bs with
  | nil => intro rs _ b hb; cases hb
  | cons b₀ bs ih =>
    intro rs h b hb
    obtain ⟨A, X, hA, hX, -⟩ := collectRows_cons_ok h
    rcases List.mem_cons.mp hb with rfl | hb'
    · exact ⟨A, hA⟩
    · exact ih hX b hb'

/-- When every buoy's inner loop succeeds, the aggregation succeeds. -/
lemma collectRows_ok_of_forall {dist : ℚ → ℚ → ℚ → ℚ → ℚ} {fs : String → Option Dataset}
    {c : List (String × List String)} {R_km : ℚ} {vnames : List String} :
    ∀ {bs : List (String × ℚ × ℚ)},
      (∀ b ∈ bs, ∃ rsb,
        rowsForBuoy dist fs b.1 b.2.1 b.2.2 R_km vnames (lookupD c b.1) = .ok rsb) →
      ∃ rs, collectRows dist fs c R_km vnames bs = .ok rs := by
  intro bs
  induction bs with
  | nil => intro _; exact ⟨[], rfl⟩
  | cons b bs ih =>
    intro h
    obtain ⟨A, hA⟩ := h b (List.mem_cons_self _ _)
    obtain ⟨X, hX⟩ := ih (fun z hz => h z (List.mem_cons_of_mem _ hz))
    exact ⟨A ++ X, collectRows_cons_eq hA hX⟩

/-- Permuting the buoy iteration order leaves the sorted table unchanged:
each buoy's block keeps its internal order, blocks of distinct buoy names
never tie on the sort key, and the stable two-key sort therefore produces
the identical list. -/
lemma collectRows_sort_eq (dist : ℚ → ℚ → ℚ → ℚ → ℚ) (fs : String → Option Dataset)
    (c : List (String × List String)) (R_km : ℚ) (vnames : List String) :
    ∀ {bs₁ bs₂ : List (String × ℚ × ℚ)}, bs₁.Perm bs₂ →
      (bs₁.map (·.1)).Nodup →
      ∀ {r₁ r₂ : List MatchRow},
        collectRows dist fs c R_km vnames bs₁ = .ok r₁ →
        collectRows dist fs c R_km vnames bs₂ = .ok r₂ →
        List.insertionSort rowLe r₁ = List.insertionSort rowLe r₂ := by
  intro bs₁ bs₂ hp
  induction hp with
  | nil =>
    intro _ r₁ r₂ h₁ h₂
    injection h₁ with h₁
    injection h₂ with h₂
    rw [← h₁, ← h₂]
  | cons b hbs ih =>
    intro hnd r₁ r₂ h₁ h₂
    obtain ⟨A₁, X₁, hA₁, hX₁, hr₁⟩ := collectRows_cons_ok h₁
    obtain ⟨A₂, X₂, hA₂, hX₂, hr₂⟩ := collectRows_cons_ok h₂
    rw [hA₁] at hA₂
    injection hA₂ with hA₂
    subst hA₂
    rw [hr₁, hr₂, insertionSort_append, insertionSort_append,
      ih (List.nodup_cons.mp hnd).2 hX₁ hX₂]
  | swap ba bb l =>
    intro hnd r₁ r₂ h₁ h₂
    obtain ⟨B₁, Y₁, hB₁, hY₁, hr₁⟩ := collectRows_cons_ok h₁
    obtain ⟨C₁, X₁, hC₁, hX₁, hs₁⟩ := collectRows_cons_ok hY₁
    obtain ⟨B₂, Y₂, hB₂, hY₂, hr₂⟩ := collectRows_cons_ok h₂
    obtain ⟨C₂, X₂, hC₂, hX₂, hs₂⟩ := collectRows_cons_ok hY₂
    rw [hB₁] at hC₂
    injection hC₂ with e₁
    rw [hB₂] at hC₁
    injection hC₁ with e₂
    rw [hX₁] at hX₂
    injection hX₂ with e₃
    subst e₁ e₂ e₃
    have hneq : bb.1 ≠ ba.1 := by
      intro he
      have hm1 : ba.1 ∈ (ba :: l).map (·.1) :=
        List.mem_map.mpr ⟨ba, List.mem_cons_self _ _, rfl⟩
      rw [← he] at hm1
      exact (List.nodup_cons.mp hnd).1 hm1
    have hby := rowsForBuoy_buoy_eq hB₁
    have hbx := rowsForBuoy_buoy_eq hB₂
    have hcomp : ∀ a ∈ B₁, ∀ b ∈ B₂, rowLt a b ∨ rowLt b a := by
      intro a ha b hb
      rcases lt_trichotomy a.buoy b.buoy with h | h | h
      · exact Or.inl (Or.inl h)
      · exact absurd ((hby a ha).symm.trans (h.trans (hbx b hb))) hneq
      · exact Or.inr (Or.inl h)
    rw [hr₁, hs₁, hr₂, hs₂, insertionSort_append, insertionSort_append,
      insertionSort_append, insertionSort_append]
    exact foldr_orderedInsert_blocks_comm B₁ B₂ hcomp _
  | trans hp₁ hp₂ ih₁ ih₂ =>
    intro hnd r₁ r₂ h₁ h₂
    have hall₁ := collectRows_ok_forall h₁
    obtain ⟨rm, hm⟩ :=
      collectRows_ok_of_forall (fun b hb => hall₁ b (hp₁.mem_iff.mpr hb))
    have hnd₂ := ((hp₁.map (·.1)).nodup_iff).mp hnd
    exact (ih₁ hnd h₁ hm).trans (ih₂ hnd₂ hm h₂)

/-- Claim C4 (amended): every table returned by `collocate_all` is sorted
by point name then matched time.  Permuting the iteration order of the
points (whose names are distinct, as dictionary keys) yields the
identical table row-for-row.  Permuting the per-point candidate file
lists yields a table with exactly the same rows (a permutation), and the
identical table row-for-row whenever no two rows share the
`(point, matched time)` sort key; with tied keys the relative order of
the tied rows follows the candidate-list order, so identity under
candidate-list permutation does not hold in general (see the
counterexample). -/
theorem table_sorted_and_order_independent_up_to_ties :
    (∀ (dist : ℚ → ℚ → ℚ → ℚ → ℚ) (fs : String → Option Dataset)
        (c₁ c₂ : List (String × List String)) (buoys : List (String × ℚ × ℚ))
        (R_km : ℚ) (vnames : List String) (t₁ t₂ : List MatchRow),
      (∀ nm, (lookupD c₁ nm).Perm (lookupD c₂ nm)) →
      collocate_all dist fs c₁ buoys R_km vnames = .ok t₁ →
      collocate_all dist fs c₂ buoys R_km vnames = .ok t₂ →
      List.Sorted rowLe t₁ ∧ t₁.Perm t₂ ∧ ((t₁.map rowKey).Nodup → t₁ = t₂)) ∧
    (∀ (dist : ℚ → ℚ → ℚ → ℚ → ℚ) (fs : String → Option Dataset)
        (c : List (String × List String)) (buoys₁ buoys₂ : List (String × ℚ × ℚ))
        (R_km : ℚ) (vnames : List String) (t₁ t₂ : List MatchRow),
      buoys₁.Perm buoys₂ → (buoys₁.map (·.1)).Nodup →
      collocate_all dist fs c buoys₁ R_km vnames = .ok t₁ →
      collocate_all dist fs c buoys₂ R_km vnames = .ok t₂ →
      t₁ = t₂) := by
  constructor
  · intro dist fs c₁ c₂ buoys R_km vnames t₁ t₂ hperm h₁ h₂
    obtain ⟨rows₁, hc₁, -, ht₁⟩ := collocate_all_ok h₁
    obtain ⟨rows₂, hc₂, -, ht₂⟩ := collocate_all_ok h₂
    have hrp : rows₁.Perm rows₂ :=
      collectRows_perm dist fs c₁ c₂ R_km vnames hperm buoys rows₁ rows₂ hc₁ hc₂
    have hs₁ : List.Sorted rowLe t₁ := by
      rw [ht₁]
      exact List.sorted_insertionSort rowLe rows₁
    have hs₂ : List.Sorted rowLe t₂ := by
      rw [ht₂]
      exact List.sorted_insertionSort rowLe rows₂
    have hp : t₁.Perm t₂ := by
      rw [ht₁, ht₂]
      exact ((List.perm_insertionSort rowLe rows₁).trans hrp).trans
        (List.perm_insertionSort rowLe rows₂).symm
    refine ⟨hs₁, hp, fun hnd => ?_⟩
    have hnd₂ : (t₂.map rowKey).Nodup := ((hp.map rowKey).nodup_iff).mp hnd
    exact List.eq_of_perm_of_sorted hp (sorted_rowLt_of_sorted_rowLe hs₁ hnd)
      (sorted_rowLt_of_sorted_rowLe hs₂ hnd₂)
  · intro dist fs c buoys₁ buoys₂ R_km vnames t₁ t₂ hp hnd h₁ h₂
    obtain ⟨rows₁, hc₁, -, ht₁⟩ := collocate_all_ok h₁
    obtain ⟨rows₂, hc₂, -, ht₂⟩ := collocate_all_ok h₂
    rw [ht₁, ht₂]
    exact collectRows_sort_eq dist fs c R_km vnames hp hnd hc₁ hc₂

/-! Concrete fixtures used by the bug demonstrations, the counterexample
and the witnesses.  `distConst` is a distance field that is 25 km
everywhere, so a search radius of 25 exercises the inclusive boundary. -/

/-- A distance field equal to 25 km everywhere. -/
def distConst : ℚ → ℚ → ℚ → ℚ → ℚ := fun _ _ _ _ => 25

/-- A cell at the origin carrying one finite and one non-finite variable. -/
def cell0 : Cell :=
  { idx := [0, 0], lon := 0, lat := 0, time := 5
    vars := [("wind", .finite 7), ("swh", .nonfinite)] }

/-- A second cell at the same distance, at the lexicographically later
grid index. -/
def cellTie : Cell :=
  { idx := [0, 1], lon := 0, lat := 0, time := 6, vars := [] }

/-- A well-formed one-cell dataset on an `x`/`y` grid. -/
def dsGood : Dataset :=
  { dimNames := ["x", "y"], cells := [cell0]
    hasLon := true, hasLat := true, hasTime := true }

/-- A dataset whose `lon` coordinate variable is missing: reading it
raises inside the crop. -/
def dsNoLon : Dataset :=
  { dimNames := ["x", "y"], cells := [cell0]
    hasLon := false, hasLat := true, hasTime := true }

/-- A two-cell dataset whose cells tie at the minimal distance under
`distConst`. -/
def dsTie : Dataset :=
  { dimNames := ["x", "y"], cells := [cell0, cellTie]
    hasLon := true, hasLat := true, hasTime := true }

/-- A dataset whose grid dimensions are named `num_lines`/`num_pixels`
rather than `x`/`y`, with a cell inside the search radius. -/
def dsNoXY : Dataset :=
  { dimNames := ["num_lines", "num_pixels"], cells := [cell0]
    hasLon := true, hasLat := true, hasTime := true }

/-- The fixture filesystem. -/
def fsStd : String → Option Dataset := fun p =>
  if p = "good.nc" then some dsGood
  else if p = "bad.nc" then some dsNoLon
  else if p = "tie.nc" then some dsTie
  else if p = "noxy.nc" then some dsNoXY
  else if p = "a.nc" then some dsGood
  else if p = "b.nc" then some dsGood
  else none

lemma fsStd_good : fsStd "good.nc" = some dsGood := rfl

lemma fsStd_bad : fsStd "bad.nc" = some dsNoLon := rfl

lemma fsStd_tie : fsStd "tie.nc" = some dsTie := rfl

lemma fsStd_noxy : fsStd "noxy.nc" = some dsNoXY := rfl

lemma fsStd_a : fsStd "a.nc" = some dsGood := rfl

lemma fsStd_b : fsStd "b.nc" = some dsGood := rfl

/-- The row matched from `good.nc` with no requested variables. -/
def rowGood : MatchRow := mkRow distConst "good.nc" "B" 0 0 [] cell0

/-- The rows matched from `a.nc` and `b.nc`: same buoy, same matched
time, different source file. -/
def rowA : MatchRow := mkRow distConst "a.nc" "B" 0 0 [] cell0

/-- See `rowA`. -/
def rowB : MatchRow := mkRow distConst "b.nc" "B" 0 0 [] cell0

/-- The row matched from the tie dataset: built from the first tied cell. -/
def rowTie : MatchRow := mkRow distConst "tie.nc" "B" 0 0 [] cell0

/-- The row matched from `good.nc` with three requested variables. -/
def rowVars : MatchRow := mkRow distConst "good.nc" "B" 0 0 ["wind", "swh", "missing"] cell0

lemma matchOne_good_eval :
    collocate_buoy_to_file distConst fsStd "good.nc" "B" 0 0 25 [] =
      (.ok (some rowGood), true) := by
  norm_num [collocate_buoy_to_file, fsStd_good, dsGood, cropCells, inBox, cell0,
    dims_get, dimIndex, dimSizeAfterCrop, maskedCells, selectFirstMin, distConst,
    rowGood, mkRow, extractVars]

lemma matchOne_a_eval :
    collocate_buoy_to_file distConst fsStd "a.nc" "B" 0 0 25 [] =
      (.ok (some rowA), true) := by
  norm_num [collocate_buoy_to_file, fsStd_a, dsGood, cropCells, inBox, cell0,
    dims_get, dimIndex, dimSizeAfterCrop, maskedCells, selectFirstMin, distConst,
    rowA, mkRow, extractVars]

lemma matchOne_b_eval :
    collocate_buoy_to_file distConst fsStd "b.nc" "B" 0 0 25 [] =
      (.ok (some rowB), true) := by
  norm_num [collocate_buoy_to_file, fsStd_b, dsGood, cropCells, inBox, cell0,
    dims_get, dimIndex, dimSizeAfterCrop, maskedCells, selectFirstMin, distConst,
    rowB, mkRow, extractVars]

lemma matchOne_bad_eval :
    collocate_buoy_to_file distConst fsStd "bad.nc" "B" 0 0 25 [] =
      (.error "KeyError: lon", false) := by
  norm_num [collocate_buoy_to_file, fsStd_bad, dsNoLon]

/-- Claim C1: the spec calls an all-empty result a normal outcome, but
with zero collected rows `pd.DataFrame(rows)` has no columns and
`sort_values(["buoy", "pixel_time"])` raises `KeyError`
(`collocation.py:110`): the aggregation errors instead of returning an
empty table. -/
theorem empty_result_sort_values_keyerror :
    collocate_all distConst fsStd [("B", [])] [("B", 0, 0)] 25 [] =
      .error "KeyError: buoy" := by
  norm_num [collocate_all, collectRows, rowsForBuoy, lookupD, sort_values]

/-- Claim C2: the spec requires the dataset handle to be released on every
exit path, but an exception raised between `xr.open_dataset` and
`ds.close()` — here a dataset whose `lon` variable is missing, raising at
the crop (`collocation.py:40`) — propagates without any `close()`: the
handle leaks (second component `false`). -/
theorem missing_coordinate_error_leaks_handle :
    collocate_buoy_to_file distConst fsStd "bad.nc" "B" 0 0 25 [] =
      (.error "KeyError: lon", false) := by
  norm_num [collocate_buoy_to_file, fsStd_bad, dsNoLon]

/-- Claim C3: the spec requires matching-time failures to be isolated per
(point, file) pair, but `collocate_all` has no `try`/`except`
(`collocation.py:104-110`): the failure of the first pair aborts the whole
run even though the second pair alone would have produced a match. -/
theorem failing_pair_aborts_whole_run :
    collocate_all distConst fsStd [("B", ["bad.nc", "good.nc"])] [("B", 0, 0)] 25 [] =
      .error "KeyError: lon" ∧
    collocate_all distConst fsStd [("B", ["good.nc"])] [("B", 0, 0)] 25 [] =
      .ok [rowGood] := by
  constructor
  · norm_num [collocate_all, collectRows, rowsForBuoy, lookupD, matchOne_bad_eval]
  · norm_num [collocate_all, collectRows, rowsForBuoy, lookupD, matchOne_good_eval,
      sort_values, List.insertionSort, List.orderedInsert]

/-- Claim C4, counterexample: two files match the same buoy at the same
matched time; swapping their order in the candidate list swaps the two
tied rows in the sorted table, so the output is not identical
row-for-row. -/
theorem candidate_order_changes_tied_rows :
    collocate_all distConst fsStd [("B", ["a.nc", "b.nc"])] [("B", 0, 0)] 25 [] ≠
    collocate_all distConst fsStd [("B", ["b.nc", "a.nc"])] [("B", 0, 0)] 25 [] := by
  norm_num [collocate_all, collectRows, rowsForBuoy, lookupD, matchOne_a_eval,
    matchOne_b_eval, sort_values, List.insertionSort, List.orderedInsert,
    rowLe, rowA, rowB, mkRow, extractVars, cell0, distConst]
  exact fun h => absurd h (by decide)

lemma matchOne_tie_eval :
    collocate_buoy_to_file distConst fsStd "tie.nc" "B" 0 0 25 [] =
      (.ok (some rowTie), true) := by
  norm_num [collocate_buoy_to_file, fsStd_tie, dsTie, cropCells, inBox, cell0,
    cellTie, dims_get, dimIndex, dimSizeAfterCrop, maskedCells, selectFirstMin,
    pickMin, distConst, rowTie, mkRow, extractVars]

lemma matchOne_vars_eval :
    collocate_buoy_to_file distConst fsStd "good.nc" "B" 0 0 25
      ["wind", "swh", "missing"] = (.ok (some rowVars), true) := by
  norm_num [collocate_buoy_to_file, fsStd_good, dsGood, cropCells, inBox, cell0,
    dims_get, dimIndex, dimSizeAfterCrop, maskedCells, selectFirstMin, distConst,
    rowVars, mkRow, extractVars]

/-- A readable overpass file with known extents. -/
def fileA : NcFile := { name := "swot.nc", extents := some ⟨169, 171, 49, 51⟩ }

/-- Witness for claim C4: a concrete run whose table the theorem proves
sorted, permutation-stable and unique for distinct keys, plus two runs
differing only in the buoy iteration order whose tables the theorem
proves identical. -/
theorem table_sorted_witness :
    (List.Sorted rowLe [rowGood] ∧ List.Perm [rowGood] [rowGood] ∧
      (([rowGood].map rowKey).Nodup → [rowGood] = [rowGood])) ∧
    ([rowGood] : List MatchRow) = [rowGood] := by
  have hrun : collocate_all distConst fsStd [("B", ["good.nc"])] [("B", 0, 0)] 25 [] =
      .ok [rowGood] := by
    norm_num [collocate_all, collectRows, rowsForBuoy, lookupD, matchOne_good_eval,
      sort_values, List.insertionSort, List.orderedInsert]
  have hrun₁ : collocate_all distConst fsStd [("B", ["good.nc"])]
      [("P", 1, 2), ("B", 0, 0)] 25 [] = .ok [rowGood] := by
    norm_num [collocate_all, collectRows, rowsForBuoy, lookupD, matchOne_good_eval,
      sort_values, List.insertionSort, List.orderedInsert, List.lookup]
  have hrun₂ : collocate_all distConst fsStd [("B", ["good.nc"])]
      [("B", 0, 0), ("P", 1, 2)] 25 [] = .ok [rowGood] := by
    norm_num [collocate_all, collectRows, rowsForBuoy, lookupD, matchOne_good_eval,
      sort_values, List.insertionSort, List.orderedInsert, List.lookup]
  constructor
  · exact table_sorted_and_order_independent_up_to_ties.1 distConst fsStd
      [("B", ["good.nc"])] [("B", ["good.nc"])] [("B", 0, 0)] 25 [] [rowGood] [rowGood]
      (fun _ => List.Perm.refl _) hrun hrun
  · exact table_sorted_and_order_independent_up_to_ties.2 distConst fsStd
      [("B", ["good.nc"])] [("P", 1, 2), ("B", 0, 0)] [("B", 0, 0), ("P", 1, 2)] 25 []
      [rowGood] [rowGood] (List.Perm.swap _ _ _) (by decide) hrun₁ hrun₂

/-- Witness for claim C5: a match whose cell sits at exactly the search
radius is selected (inclusive boundary) and its distance is within the
radius. -/
theorem match_distance_le_radius_witness :
    rowGood.distance_km = 25 ∧ rowGood.distance_km ≤ 25 :=
  ⟨by norm_num [rowGood, mkRow, distConst],
   match_distance_le_radius distConst fsStd "good.nc" "B" 0 0 25 [] rowGood
     (by rw [matchOne_good_eval])⟩

/-- Witness for claim C6: two cells tie at distance 25; the selected cell
is the lexicographically first. -/
theorem tie_break_first_index_witness :
    ∃ c ∈ maskedCells distConst dsTie 0 0 25,
      rowTie = mkRow distConst "tie.nc" "B" 0 0 [] c ∧
      (∀ c' ∈ maskedCells distConst dsTie 0 0 25,
        distConst c.lon c.lat 0 0 ≤ distConst c'.lon c'.lat 0 0) ∧
      (∀ c' ∈ maskedCells distConst dsTie 0 0 25,
        distConst c'.lon c'.lat 0 0 = distConst c.lon c.lat 0 0 →
          c.idx = c'.idx ∨ List.Lex (· < ·) c.idx c'.idx) := by
  have hs : dsTie.cells.Pairwise (fun a b => List.Lex (· < ·) a.idx b.idx) := by
    simp only [dsTie, List.pairwise_cons, List.mem_singleton]
    refine ⟨?_, by simp⟩
    intro a ha
    rw [ha]
    exact List.Lex.cons (List.Lex.rel (by norm_num [cell0, cellTie]))
  exact tie_break_first_index distConst fsStd "tie.nc" "B" 0 0 25 [] rowTie dsTie
    fsStd_tie hs (by rw [matchOne_tie_eval])

/-- Witness for claim C7: a point inside the padded extent of a readable
file appears in the candidate list of that file. -/
theorem candidate_iff_padded_extent_witness :
    fileA ∈ lookupD (index_overpasses [fileA] [("B", (170, 50))] 25) "B" := by
  refine (candidate_iff_padded_extent [fileA] [("B", (170, 50))] 25 "B" 170 50 fileA
    (by simp) (by simp)).mpr ?_
  exact ⟨List.mem_singleton.mpr rfl, ⟨169, 171, 49, 51⟩, rfl,
    by norm_num, by norm_num, by norm_num, by norm_num⟩

/-- Witness for claim C8: a requested variable absent from the dataset is
omitted from the matched row entirely. -/
theorem variable_extraction_policy_witness :
    ∃ ds c, fsStd "good.nc" = some ds ∧ c ∈ maskedCells distConst ds 0 0 25 ∧
      rowVars = mkRow distConst "good.nc" "B" 0 0 ["wind", "swh", "missing"] c ∧
      (∀ q, List.lookup "missing" c.vars = some (.finite q) →
        List.lookup "missing" rowVars.vars = some (some q)) ∧
      (List.lookup "missing" c.vars = some .nonfinite →
        List.lookup "missing" rowVars.vars = some none) ∧
      (List.lookup "missing" c.vars = none →
        List.lookup "missing" rowVars.vars = none) :=
  variable_extraction_policy distConst fsStd "good.nc" "B" 0 0 25
    ["wind", "swh", "missing"] rowVars "missing" (by rw [matchOne_vars_eval])
    (by simp)

/-- Witness for claim C9: a dataset gridded on `num_lines`/`num_pixels`
with an in-radius cell still reports no match. -/
theorem no_xy_dims_returns_none_witness :
    collocate_buoy_to_file distConst fsStd "noxy.nc" "B" 0 0 25 [] =
      (.ok none, true) :=
  no_xy_dims_returns_none distConst fsStd "noxy.nc" "B" 0 0 25 [] dsNoXY
    fsStd_noxy rfl rfl (by decide) (by decide)

/-- Witness for claim C10: the key list is exactly the buoy names, and an
absent key behaves as an empty candidate list. -/
theorem candidate_keys_witness :
    (index_overpasses [fileA] [("B", (170, 50))] 25).map (·.1) = ["B"] ∧
    collocate_all distConst fsStd (("C", []) :: [("B", ["good.nc"])])
        [("B", 0, 0)] 25 [] =
      collocate_all distConst fsStd [("B", ["good.nc"])] [("B", 0, 0)] 25 [] := by
  constructor
  · exact candidate_keys_exact_and_missing_key_empty.1 [fileA] [("B", (170, 50))] 25
  · exact candidate_keys_exact_and_missing_key_empty.2 distConst fsStd
      [("B", ["good.nc"])] "C" [("B", 0, 0)] 25 [] (by decide)

end Swot
